import Mathlib

/-!
A shallow embedding of the grit storage layer: the object codec and store
from src/objects.rs, the staging-index codec from src/index.rs, the in-memory
upsert step of src/add.rs, and the tree builder from src/write_tree.rs.

Bytes are modelled as natural numbers in lists; machine integers as naturals
with explicit bounds or modular arithmetic; fallible code returns an explicit
result type in which a Rust panic is a distinguished outcome.  SHA-1 and the
zlib codec are external libraries: SHA-1 is passed to every hashing operation
as a function parameter, and since zlib inflate of deflate output restores the
input, the store maps a hash directly to the bytes that were compressed.
-/

namespace Grit

/-- Outcome of translated fallible code: a value, an error returned through
the Result type, a Rust panic, or exhaustion of the fuel that makes a source
loop total in this model. -/
inductive Res (α : Type) where
  | ok (a : α)
  | err
  | panic
  | gas
deriving DecidableEq

/-- Model of Iterator::position - the index of the first element satisfying
the predicate, if any. -/
def position {α : Type} (p : α → Bool) : List α → Option Nat
  | [] => none
  | x :: xs => if p x then some 0 else (position p xs).map (fun n => n + 1)

/-- The bytes of a Rust string literal. -/
def strBytes (s : String) : List Nat :=
  s.toList.map Char.toNat

/-- Accumulator loop for the digits of n in the given base, most significant
first, as ASCII bytes.  The fuel argument makes the recursion structural;
fuel n always suffices since dividing by a base of at least two shrinks n. -/
def digitsGo (base : Nat) : Nat → Nat → List Nat → List Nat
  | 0, _, acc => acc
  | fuel + 1, n, acc =>
    if n = 0 then acc else digitsGo base fuel (n / base) ((48 + n % base) :: acc)

/-- Model of usize::to_string as bytes: the ASCII decimal representation. -/
def decBytes (n : Nat) : List Nat :=
  if n = 0 then [48] else digitsGo 10 n n []

/-- Model of format with the octal specifier: ASCII octal representation. -/
def octBytes (n : Nat) : List Nat :=
  if n = 0 then [48] else digitsGo 8 n n []

/-- Big-endian value of a byte list, as computed by uN::from_be_bytes. -/
def beVal (l : List Nat) : Nat :=
  l.foldl (fun a b => a * 256 + b) 0

/-- Rust std::str::from_utf8 validity of a byte sequence (RFC 3629): ASCII,
and well-formed 2-, 3- and 4-byte sequences excluding overlong forms,
surrogates, and code points above 0x10FFFF. -/
def validUtf8 : List Nat → Bool
  | [] => true
  | b :: rest =>
    if b ≤ 0x7F then validUtf8 rest
    else if 0xC2 ≤ b ∧ b ≤ 0xDF then
      match rest with
      | c1 :: r => (0x80 ≤ c1 ∧ c1 ≤ 0xBF) && validUtf8 r
      | [] => false
    else if b = 0xE0 then
      match rest with
      | c1 :: c2 :: r =>
        (0xA0 ≤ c1 ∧ c1 ≤ 0xBF) && (0x80 ≤ c2 ∧ c2 ≤ 0xBF) && validUtf8 r
      | _ => false
    else if (0xE1 ≤ b ∧ b ≤ 0xEC) ∨ b = 0xEE ∨ b = 0xEF then
      match rest with
      | c1 :: c2 :: r =>
        (0x80 ≤ c1 ∧ c1 ≤ 0xBF) && (0x80 ≤ c2 ∧ c2 ≤ 0xBF) && validUtf8 r
      | _ => false
    else if b = 0xED then
      match rest with
      | c1 :: c2 :: r =>
        (0x80 ≤ c1 ∧ c1 ≤ 0x9F) && (0x80 ≤ c2 ∧ c2 ≤ 0xBF) && validUtf8 r
      | _ => false
    else if b = 0xF0 then
      match rest with
      | c1 :: c2 :: c3 :: r =>
        (0x90 ≤ c1 ∧ c1 ≤ 0xBF) && (0x80 ≤ c2 ∧ c2 ≤ 0xBF) &&
          (0x80 ≤ c3 ∧ c3 ≤ 0xBF) && validUtf8 r
      | _ => false
    else if 0xF1 ≤ b ∧ b ≤ 0xF3 then
      match rest with
      | c1 :: c2 :: c3 :: r =>
        (0x80 ≤ c1 ∧ c1 ≤ 0xBF) && (0x80 ≤ c2 ∧ c2 ≤ 0xBF) &&
          (0x80 ≤ c3 ∧ c3 ≤ 0xBF) && validUtf8 r
      | _ => false
    else if b = 0xF4 then
      match rest with
      | c1 :: c2 :: c3 :: r =>
        (0x80 ≤ c1 ∧ c1 ≤ 0x8F) && (0x80 ≤ c2 ∧ c2 ≤ 0xBF) &&
          (0x80 ≤ c3 ∧ c3 ≤ 0xBF) && validUtf8 r
      | _ => false
    else false

/-- Blob from src/objects.rs: an opaque byte payload. -/
structure Blob where
  bytes : List Nat
deriving DecidableEq

/-- Commit from src/objects.rs. -/
structure Commit where
  tree : List Nat
  author : List Char
  committer : List Char
  date : Option (List Char)
  parent : Option (List Nat)
  message : List Char
deriving DecidableEq

/-- TreeEntry from src/objects.rs: mode, name and hash of one child. -/
structure TreeEntry where
  mode : Nat
  name : List Nat
  hash : List Nat
deriving DecidableEq

/-- Tree from src/objects.rs: an ordered list of entries. -/
structure Tree where
  children : List TreeEntry
deriving DecidableEq

/-- Tag from src/objects.rs: only a name. -/
structure Tag where
  name : List Char
deriving DecidableEq

/-- The closed sum of object kinds, as the Object enum in src/objects.rs. -/
inductive Object where
  | blob (b : Blob)
  | commit (c : Commit)
  | tree (t : Tree)
  | tag (t : Tag)
deriving DecidableEq

/-- One record of Tree::content_bytes: octal mode, space, name, NUL, hash. -/
def TreeEntry.record (e : TreeEntry) : List Nat :=
  octBytes e.mode ++ [32] ++ e.name ++ [0] ++ e.hash

/-- GitObject::type_name as bytes. -/
def Object.typeName : Object → List Nat
  | .blob _ => strBytes ("blob")
  | .commit _ => strBytes ("commit")
  | .tree _ => strBytes ("tree")
  | .tag _ => strBytes ("tag")

/-- GitObject::content_bytes per kind.  The source Commit::content_bytes is
the stub vec of the single byte 0 (marked TODO in src/objects.rs). -/
def Object.contentBytes : Object → List Nat
  | .blob b => b.bytes
  | .commit _ => [0]
  | .tree t => (t.children.map TreeEntry.record).flatten
  | .tag t => t.name.map Char.toNat

/-- GitObject::content_with_header: type name, space, decimal content length,
NUL, then content. -/
def Object.contentWithHeader (o : Object) : List Nat :=
  o.typeName ++ [32] ++ decBytes o.contentBytes.length ++ [0] ++ o.contentBytes

/-- GitObject::hash: SHA-1 of header plus content; the SHA-1 implementation
is an external library passed in as a parameter. -/
def Object.hash (o : Object) (sha1 : List Nat → List Nat) : List Nat :=
  sha1 o.contentWithHeader

/-- The on-disk object directory, as a map from a 20-byte hash to the bytes
that were deflated into the file named by that hash (inflate of deflate is
the identity, so the pre-compression bytes are stored). -/
def Store : Type :=
  List (List Nat × List Nat)

/-- GitObject::write: store the header-plus-content bytes under the hash. -/
def Object.write (o : Object) (sha1 : List Nat → List Nat) (s : Store) : Store :=
  (o.hash sha1, o.contentWithHeader) :: s

/-- read_object_raw from src/objects.rs: None when no file exists for the
hash; otherwise the inflated bytes. -/
def read_object_raw (s : Store) (h : List Nat) : Option (List Nat) :=
  if h.length < 3 then none else List.lookup h s

/-- An ASCII-faithful model of String::from_utf8_lossy: bytes below 0x80 map
to their code points, all others to the replacement character.  Multi-byte
sequences are not reconstructed; every claim exercises only ASCII and NUL
content through this function. -/
def bytesToCharsLossy (bs : List Nat) : List Char :=
  bs.map (fun b => if b < 128 then Char.ofNat b else Char.ofNat 0xFFFD)

/-- One hexadecimal digit value, as hex::decode accepts. -/
def hexDigitVal (c : Char) : Option Nat :=
  if 48 ≤ c.toNat ∧ c.toNat ≤ 57 then some (c.toNat - 48)
  else if 97 ≤ c.toNat ∧ c.toNat ≤ 102 then some (c.toNat - 87)
  else if 65 ≤ c.toNat ∧ c.toNat ≤ 70 then some (c.toNat - 55)
  else none

/-- hex::decode: pairs of hex digits to bytes; odd length or a non-hex
character is an error. -/
def hexDecode : List Char → Option (List Nat)
  | [] => some []
  | c1 :: c2 :: rest =>
    match hexDigitVal c1, hexDigitVal c2, hexDecode rest with
    | some h1, some h2, some bs => some ((h1 * 16 + h2) :: bs)
    | _, _, _ => none
  | _ :: [] => none

/-- parse_hash from src/objects.rs: hex-decode and require exactly 20 bytes;
both failure modes are returned errors, not panics. -/
def parse_hash (s : List Char) : Res (List Nat) :=
  match hexDecode s with
  | none => .err
  | some bs => if bs.length = 20 then .ok bs else .err

/-- The five states of the commit parser in src/objects.rs. -/
inductive ParseState where
  | beforeKey
  | inKey
  | beforeValue
  | inValue
  | inMessage
deriving DecidableEq

/-- The mutable state of parse_commit: the character buffer, the key most
recently completed, the machine state, and the map of header key-value pairs
(insertion at the head, so lookup sees the latest binding, as HashMap insert
does). -/
structure FsmState where
  buffer : List Char
  currentKey : Option (List Char)
  state : ParseState
  tags : List (List Char × List Char)
deriving DecidableEq

/-- One character step of the parse_commit state machine. -/
def commitStep (f : FsmState) (c : Char) : Res FsmState :=
  match f.state with
  | .beforeKey =>
    if c = '\n' then .ok ⟨[], f.currentKey, .inMessage, f.tags⟩
    else .ok ⟨[c], f.currentKey, .inKey, f.tags⟩
  | .inKey =>
    if c = ' ' then .ok ⟨f.buffer, some f.buffer, .beforeValue, f.tags⟩
    else .ok ⟨f.buffer ++ [c], f.currentKey, .inKey, f.tags⟩
  | .beforeValue =>
    if c = '\n' then .err
    else if c.isWhitespace then .ok f
    else .ok ⟨[c], f.currentKey, .inValue, f.tags⟩
  | .inValue =>
    if c = '\n' then
      match f.currentKey with
      | some key => .ok ⟨f.buffer, f.currentKey, .beforeKey, (key, f.buffer) :: f.tags⟩
      | none => .err
    else .ok ⟨f.buffer ++ [c], f.currentKey, .inValue, f.tags⟩
  | .inMessage => .ok ⟨f.buffer ++ [c], f.currentKey, .inMessage, f.tags⟩

/-- Run the machine over the whole character sequence. -/
def runFsm (f : FsmState) : List Char → Res FsmState
  | [] => .ok f
  | c :: cs =>
    match commitStep f c with
    | .ok f2 => runFsm f2 cs
    | .err => .err
    | .panic => .panic
    | .gas => .gas

/-- HashMap::get on the side map of header pairs. -/
def tagsGet (tags : List (List Char × List Char)) (k : String) : Option (List Char) :=
  List.lookup k.toList tags

/-- parse_commit from src/objects.rs.  After the character scan: the parent
is looked up with errors propagated, then the tree, author and committer are
looked up each followed by Option::unwrap, which panics when the key is
absent. -/
def parse_commit (text : List Char) : Res Commit :=
  match runFsm ⟨[], some [], .inKey, []⟩ text with
  | .err => .err
  | .panic => .panic
  | .gas => .gas
  | .ok f =>
    let message := f.buffer
    let parentRes : Res (Option (List Nat)) :=
      match tagsGet f.tags ("parent") with
      | some hx =>
        match parse_hash hx with
        | .ok bs => .ok (some bs)
        | .err => .err
        | .panic => .panic
        | .gas => .gas
      | none => .ok none
    match parentRes with
    | .err => .err
    | .panic => .panic
    | .gas => .gas
    | .ok parent =>
      match tagsGet f.tags ("tree") with
      | none => .panic
      | some treeStr =>
        match parse_hash treeStr with
        | .err => .err
        | .panic => .panic
        | .gas => .gas
        | .ok tree =>
          match tagsGet f.tags ("author") with
          | none => .panic
          | some author =>
            match tagsGet f.tags ("committer") with
            | none => .panic
            | some committer =>
              .ok ⟨tree, author, committer, tagsGet f.tags ("date"), parent, message⟩

/-- parse_tree_node from src/objects.rs.  The space search can fail with a
returned error; the conversion of the mode bytes into a 4-byte array panics
unless the space is at index 4; the NUL search can fail with a returned
error; slicing the name (when the NUL precedes the mode end) or the 20 hash
bytes past the end of the buffer panics. -/
def parse_tree_node (bytes : List Nat) (pos : Nat) : Res (TreeEntry × Nat) :=
  let remainder := bytes.drop pos
  match position (fun x => x == 32) remainder with
  | none => .err
  | some mode_end =>
    if mode_end = 4 then
      let mode := beVal (remainder.take 4)
      match position (fun x => x == 0) remainder with
      | none => .err
      | some path_end =>
        if path_end < mode_end + 1 then .panic
        else
          let path_bytes := (remainder.take path_end).drop (mode_end + 1)
          if validUtf8 path_bytes then
            if remainder.length < path_end + 21 then .panic
            else .ok (⟨mode, path_bytes, (remainder.drop (path_end + 1)).take 20⟩,
                      pos + path_end + 21)
          else .err
    else .panic

/-- The parse_tree loop: nodes are read until the position reaches the end of
the buffer.  Each successful node advances the position by at least 21, so
the fuel given by parse_tree never runs out; gas is a modelling artifact. -/
def parse_tree_go (bytes : List Nat) (fuel : Nat) (pos : Nat) (acc : List TreeEntry) : Res Tree :=
  match fuel with
  | 0 => .gas
  | fuel + 1 =>
    if pos < bytes.length then
      match parse_tree_node bytes pos with
      | .ok (node, pos2) => parse_tree_go bytes fuel pos2 (acc ++ [node])
      | .err => .err
      | .panic => .panic
      | .gas => .gas
    else .ok ⟨acc⟩

/-- parse_tree from src/objects.rs. -/
def parse_tree (bytes : List Nat) : Res Tree :=
  parse_tree_go bytes (bytes.length + 1) 0 []

/-- search_object from src/objects.rs: read the raw bytes, split the header
at the first space and the first NUL after it, then dispatch on the type
token. -/
def search_object (s : Store) (h : List Nat) : Res (Option Object) :=
  match read_object_raw s h with
  | none => .ok none
  | some bytes =>
    match position (fun x => x == 32) bytes with
    | none => .err
    | some type_end =>
      match position (fun x => x == 0) (bytes.drop (type_end + 1)) with
      | none => .err
      | some rel =>
        let file_size_end := type_end + 1 + rel
        let object_type := bytes.take type_end
        let contents := bytes.drop (file_size_end + 1)
        if object_type = strBytes ("blob") then .ok (some (.blob ⟨contents⟩))
        else if object_type = strBytes ("tree") then
          match parse_tree contents with
          | .ok t => .ok (some (.tree t))
          | .err => .err
          | .panic => .panic
          | .gas => .gas
        else if object_type = strBytes ("tag") then
          .ok (some (.tag ⟨("TODO: Read name").toList⟩))
        else if object_type = strBytes ("commit") then
          match parse_commit (bytesToCharsLossy contents) with
          | .ok c => .ok (some (.commit c))
          | .err => .err
          | .panic => .panic
          | .gas => .gas
        else .err

/-- IndexItem from src/index.rs: ten 32-bit stat fields, the content hash,
and the path relative to the repository root, stored as its bytes. -/
structure IndexItem where
  ctime : Nat
  ctime_nsec : Nat
  mtime : Nat
  mtime_nsec : Nat
  dev : Nat
  ino : Nat
  mode : Nat
  uid : Nat
  gid : Nat
  size : Nat
  hash : List Nat
  path : List Nat
deriving DecidableEq

/-- Index from src/index.rs: a version and the ordered entries. -/
structure Index where
  version : Nat
  items : List IndexItem
deriving DecidableEq

/-- The four big-endian bytes of a 32-bit value, as u32::to_be_bytes. -/
def u32ToBe (v : Nat) : List Nat :=
  [v / 2 ^ 24 % 256, v / 2 ^ 16 % 256, v / 2 ^ 8 % 256, v % 256]

/-- The two big-endian bytes of a 16-bit value, as u16::to_be_bytes. -/
def u16ToBe (v : Nat) : List Nat :=
  [v / 2 ^ 8 % 256, v % 256]

/-- read_u32 from src/index.rs reads four bytes at the cursor; the slice
panics when fewer than four bytes remain, modelled as none. -/
def read_u32 (bytes : List Nat) (pos : Nat) : Option Nat :=
  if pos + 4 ≤ bytes.length then some (beVal ((bytes.drop pos).take 4)) else none

/-- A slice of n bytes at the cursor; an out-of-bounds slice panics,
modelled as none.  Covers read_hash, the flags slice and the path slice. -/
def readSlice (bytes : List Nat) (pos n : Nat) : Option (List Nat) :=
  if pos + n ≤ bytes.length then some ((bytes.drop pos).take n) else none

/-- The serialized bytes of one entry, from the loop body of
Index::serialize: the ten stat fields, the 20 hash bytes, the two flags
bytes with the low 12 bits holding the clamped path length, the path bytes,
then 1 to 8 NUL padding bytes to a multiple of eight. -/
def entryBytes (item : IndexItem) : List Nat :=
  let fixed := u32ToBe item.ctime ++ u32ToBe item.ctime_nsec ++
    u32ToBe item.mtime ++ u32ToBe item.mtime_nsec ++ u32ToBe item.dev ++
    u32ToBe item.ino ++ u32ToBe item.mode ++ u32ToBe item.uid ++
    u32ToBe item.gid ++ u32ToBe item.size ++ item.hash
  let flags := min 0xFFF item.path.length
  let base := fixed ++ u16ToBe flags ++ item.path
  base ++ List.replicate (8 - base.length % 8) 0

/-- Index::serialize: magic, version, entry count, the entries, then the
SHA-1 checksum of everything emitted so far.  The count conversion to u32
is the one fallible step. -/
def Index.serialize (x : Index) (sha1 : List Nat → List Nat) : Option (List Nat) :=
  if x.items.length < 2 ^ 32 then
    let body := strBytes ("DIRC") ++ u32ToBe x.version ++
      u32ToBe x.items.length ++ (x.items.map entryBytes).flatten
    some (body ++ sha1 body)
  else none

/-- The per-entry read of Index::deserialize, over the tail of the buffer
that starts at the current entry: the ten stat fields, the hash, the flags,
the path whose length is the low 12 bits of the flags, then the skip to the
next 8-byte boundary.  Returns the item and the entry's total length. -/
def parseEntry (item_bytes : List Nat) : Option (IndexItem × Nat) := do
  let ctime ← read_u32 item_bytes 0
  let ctime_nsec ← read_u32 item_bytes 4
  let mtime ← read_u32 item_bytes 8
  let mtime_nsec ← read_u32 item_bytes 12
  let dev ← read_u32 item_bytes 16
  let ino ← read_u32 item_bytes 20
  let mode ← read_u32 item_bytes 24
  let uid ← read_u32 item_bytes 28
  let gid ← read_u32 item_bytes 32
  let size ← read_u32 item_bytes 36
  let hash ← readSlice item_bytes 40 20
  let flagsBytes ← readSlice item_bytes 60 2
  let path_len := beVal flagsBytes % 4096
  let path ← readSlice item_bytes 62 path_len
  let item_pos := 62 + path_len
  let npad := 8 - item_pos % 8
  some (⟨ctime, ctime_nsec, mtime, mtime_nsec, dev, ino, mode, uid, gid, size,
         hash, path⟩, item_pos + npad)

/-- The entry loop of Index::deserialize: n entries from the cursor; taking
the tail of the buffer panics when the cursor has passed the end. -/
def parseItems (bytes : List Nat) : Nat → Nat → Option (List IndexItem)
  | 0, _ => some []
  | n + 1, pos =>
    if bytes.length < pos then none
    else
      match parseEntry (bytes.drop pos) with
      | none => none
      | some (item, len) => (parseItems bytes n (pos + len)).map (fun l => item :: l)

/-- Index::deserialize: the first four bytes are read as a UTF-8 string (the
slice panics on a shorter buffer; invalid UTF-8 is a returned error; the
value is never compared with the DIRC magic), then the version, the entry
count, and the entries.  Panics inside the reads surface as panic. -/
def Index.deserialize (bytes : List Nat) : Res Index :=
  if bytes.length < 4 then .panic
  else if validUtf8 (bytes.take 4) then
    match read_u32 bytes 4, read_u32 bytes 8 with
    | some version, some n =>
      match parseItems bytes n 12 with
      | none => .panic
      | some items => .ok ⟨version, items⟩
    | _, _ => .panic
  else .err

/-- mem_cmp from src/add.rs: byte-wise comparison returning 1 when the right
side is greater, minus one when the left side is greater, 0 when equal; on a
shared prefix the longer side is the greater. -/
def mem_cmp : List Nat → List Nat → Int
  | [], [] => 0
  | [], _ :: _ => 1
  | _ :: _, [] => -1
  | l :: ls, r :: rs =>
    if l < r then 1 else if r < l then -1 else mem_cmp ls rs

/-- The insertion scan of cmd_add: the new item goes immediately before the
first entry whose path compares greater, or at the end. -/
def insertItem (item : IndexItem) : List IndexItem → List IndexItem
  | [] => [item]
  | x :: xs =>
    if mem_cmp item.path x.path > 0 then item :: x :: xs
    else x :: insertItem item xs

/-- The in-memory upsert step of cmd_add in src/add.rs: remove any entry
with the same path, then insert preserving the order. -/
def upsert (index : Index) (item : IndexItem) : Index :=
  ⟨index.version,
   insertItem item (index.items.filter (fun x => decide (x.path ≠ item.path)))⟩

/-- The path components of a stored path, split at the separator byte. -/
def components (p : List Nat) : List (List Nat) :=
  p.splitOn 47

/-- Joining components back into a path, as PathBuf::from_iter. -/
def joinComponents (cs : List (List Nat)) : List Nat :=
  List.intercalate [47] cs

/-- Path::starts_with: component-wise prefix test. -/
def startsWithPath (p q : List Nat) : Bool :=
  List.isPrefixOf (components q) (components p)

/-- Outcome of the tree builder: a finished tree, a panic, or fuel
exhaustion.  The source loop can fail to terminate, so the model runs on
fuel; gas records the children the current frame had accumulated when the
fuel ran out, making the entries appended by a non-terminating loop
observable. -/
inductive WsRes where
  | ok (t : Tree)
  | panic
  | gas (children : List TreeEntry)
deriving DecidableEq

/-- write_subtree from src/write_tree.rs, loop state explicit.  For the
entry at the cursor: when its path is a file in the working tree (the
is_file oracle), a blob entry with the item's mode, its full path and its
hash is appended and the cursor advances by one.  Otherwise the run of the
subdirectory prefix of depth + 1 components is located with position, whose
RELATIVE result is used as an absolute slice bound and as the new cursor;
the recursive call builds the subtree and a directory entry with decimal
mode 40000, the full prefix as its name field (the source writes the field
path, which objects.rs declares as name) and the subtree hash is appended.
The write of the finished tree to the object store is filesystem output and
is not modelled.  An inverted slice panics. -/
def wsGo (isFile : List Nat → Bool) (sha1 : List Nat → List Nat) :
    Nat → Nat → List IndexItem → Nat → List TreeEntry → WsRes
  | 0, _, _, _, acc => .gas acc
  | fuel + 1, depth, index, pos, acc =>
    if h : pos < index.length then
      let first := index.get ⟨pos, h⟩
      if isFile first.path then
        wsGo isFile sha1 fuel depth index (pos + 1)
          (acc ++ [⟨first.mode, first.path, first.hash⟩])
      else
        let subtree_path := joinComponents ((components first.path).take (depth + 1))
        let rel_end := position (fun x => !startsWithPath x.path subtree_path)
          (index.drop pos)
        match rel_end with
        | some e =>
          if e < pos then .panic
          else
            match wsGo isFile sha1 fuel (depth + 1) ((index.take e).drop pos) 0 [] with
            | .ok subtree =>
              wsGo isFile sha1 fuel depth index e
                (acc ++ [⟨40000, subtree_path, Object.hash (.tree subtree) sha1⟩])
            | .panic => .panic
            | .gas _ => .gas acc
        | none =>
          match wsGo isFile sha1 fuel (depth + 1) (index.drop pos) 0 [] with
          | .ok subtree =>
            wsGo isFile sha1 fuel depth index index.length
              (acc ++ [⟨40000, subtree_path, Object.hash (.tree subtree) sha1⟩])
          | .panic => .panic
          | .gas _ => .gas acc
    else .ok ⟨acc⟩

/-- write_tree from src/write_tree.rs: the builder over the whole item list
at depth 0 (the fuel is the model's totality device). -/
def write_tree (isFile : List Nat → Bool) (sha1 : List Nat → List Nat)
    (fuel : Nat) (index : Index) : WsRes :=
  wsGo isFile sha1 fuel 0 index.items 0 []

/-- A well-formed index item: the ten stat fields fit in 32 bits (they are
u32 in the source), the hash has exactly 20 bytes, and the path is at most
0xFFF bytes long. -/
def wfItem (item : IndexItem) : Prop :=
  item.ctime < 2 ^ 32 ∧ item.ctime_nsec < 2 ^ 32 ∧ item.mtime < 2 ^ 32 ∧
    item.mtime_nsec < 2 ^ 32 ∧ item.dev < 2 ^ 32 ∧ item.ino < 2 ^ 32 ∧
    item.mode < 2 ^ 32 ∧ item.uid < 2 ^ 32 ∧ item.gid < 2 ^ 32 ∧
    item.size < 2 ^ 32 ∧ item.hash.length = 20 ∧ item.path.length ≤ 0xFFF

instance (item : IndexItem) : Decidable (wfItem item) := by
  unfold wfItem; infer_instance

/-- A well-formed index: the version and the entry count fit in 32 bits and
every item is well formed. -/
def wfIndex (x : Index) : Prop :=
  x.version < 2 ^ 32 ∧ x.items.length < 2 ^ 32 ∧ ∀ item ∈ x.items, wfItem item

instance (x : Index) : Decidable (wfIndex x) := by
  unfold wfIndex; infer_instance

/-- The paths of the items are strictly ascending under the byte-wise
comparison of mem_cmp (1 means the left path is the smaller). -/
def pathsSorted (items : List IndexItem) : Prop :=
  items.Pairwise (fun a b => mem_cmp a.path b.path = 1)

instance (items : List IndexItem) : Decidable (pathsSorted items) := by
  unfold pathsSorted; infer_instance

/-- A stand-in for the external SHA-1 function, used to instantiate the
parameterized theorems at concrete inputs: every digest is 20 zero bytes. -/
def sha0 : List Nat → List Nat := fun _ => List.replicate 20 0

/-- A 20-byte all-zero hash value for concrete inputs. -/
def zeroHash : List Nat := List.replicate 20 0

/-- A concrete commit used to exercise the store round trip. -/
def c0 : Commit := ⟨zeroHash, ("a").toList, ("b").toList, none, none, ("m").toList⟩

/-- A concrete well-formed index item with path hello.txt. -/
def item0 : IndexItem := ⟨1, 2, 3, 4, 5, 6, 7, 8, 9, 10, zeroHash, strBytes ("hello.txt")⟩

/-- A concrete one-item index. -/
def x0 : Index := ⟨2, [item0]⟩

/-- Concrete index item with the one-byte path a. -/
def itemA : IndexItem := ⟨0, 0, 0, 0, 0, 0, 0, 0, 0, 0, zeroHash, [97]⟩

/-- Concrete index item with the one-byte path b. -/
def itemB : IndexItem := ⟨0, 0, 0, 0, 0, 0, 0, 0, 0, 0, zeroHash, [98]⟩

/-- Concrete index item with the one-byte path c. -/
def itemC : IndexItem := ⟨0, 0, 0, 0, 0, 0, 0, 0, 0, 0, zeroHash, [99]⟩

/-- The path a.txt. -/
def pathA : List Nat := strBytes ("a.txt")

/-- The path dir/b.txt. -/
def pathDirB : List Nat := strBytes ("dir/b.txt")

/-- The path e.txt. -/
def pathE : List Nat := strBytes ("e.txt")

/-- A staged entry for a.txt with a regular-file mode. -/
def itemFa : IndexItem := ⟨0, 0, 0, 0, 0, 0, 33188, 0, 0, 0, zeroHash, pathA⟩

/-- A staged entry for dir/b.txt with a regular-file mode. -/
def itemFb : IndexItem := ⟨0, 0, 0, 0, 0, 0, 33188, 0, 0, 0, zeroHash, pathDirB⟩

/-- A staged entry for e.txt with a regular-file mode. -/
def itemFe : IndexItem := ⟨0, 0, 0, 0, 0, 0, 33188, 0, 0, 0, zeroHash, pathE⟩

/-- A path-sorted entry slice: a.txt, dir/b.txt, e.txt. -/
def exItems : List IndexItem := [itemFa, itemFb, itemFe]

/-- The working-tree oracle for the concrete slice: a.txt and e.txt exist as
files, dir/b.txt does not (its directory run is to be built as a subtree). -/
def isFileEx : List Nat → Bool := fun p => p == pathA || p == pathE

set_option maxRecDepth 100000

/-- C10: Commit::content_bytes is the constant one-byte sequence 0 for every
commit, so any two commits have identical content bytes, identical headers,
identical SHA-1 hashes, and writing either one stores the same single object
whose content records none of the commit fields. -/
theorem commit_content_bytes_constant (c1 c2 : Commit) (sha1 : List Nat → List Nat)
    (s : Store) :
    Object.contentBytes (.commit c1) = [0] ∧
      Object.contentWithHeader (.commit c1) = Object.contentWithHeader (.commit c2) ∧
      Object.hash (.commit c1) sha1 = Object.hash (.commit c2) sha1 ∧
      Object.write (.commit c1) sha1 s = Object.write (.commit c2) sha1 s :=
  ⟨rfl, rfl, rfl, rfl⟩

/-- C6: counter to the claim, deserialize accepts a buffer whose first four
bytes are the ASCII magic XXXX rather than DIRC (version 2, zero entries):
the signature is read but never compared, so an Index is returned instead of
a Corrupt error. -/
theorem deserialize_accepts_wrong_magic :
    Index.deserialize ([88, 88, 88, 88] ++ u32ToBe 2 ++ u32ToBe 0) = .ok ⟨2, []⟩ := by
  decide

/-- C7: counter to the claim, deserialize of the truncated buffer that holds
only the four magic bytes DIRC panics (the version read slices past the end
of the buffer) instead of returning a Corrupt error. -/
theorem deserialize_truncated_panics :
    Index.deserialize (strBytes ("DIRC")) = .panic := by
  decide

/-- C8: counter to the claim, parse_commit on a commit text that has author
and committer headers but no tree header panics (the tree lookup is followed
by Option::unwrap) instead of returning a parse failure. -/
theorem parse_commit_missing_tree_panics :
    parse_commit (("author a\ncommitter b\n\nhello").toList) = .panic := by
  decide

/-- C9: counter to the claim, parse_tree on a record whose mode token and
name are well delimited but which ends immediately after the NUL, leaving
zero of the 20 bytes needed for the hash, panics (the hash slice indexes
past the end of the buffer) instead of failing with a parse error. -/
theorem parse_tree_truncated_hash_panics :
    parse_tree [49, 50, 51, 52, 32, 110, 0] = .panic := by
  decide

/-- C4: on the sorted slice a.txt, dir/b.txt, e.txt whose dir/b.txt entry is
not a working-tree file, the TreeEntry the builder appends for the dir run
has mode 40000 decimal, not the directory marker 0o40000 = 16384 the claim
states (the accumulated children are observable in the gas outcome because
the loop never terminates: the relative run end 1 is reused as the absolute
cursor). -/
theorem write_subtree_directory_mode_decimal :
    wsGo isFileEx sha0 3 0 exItems 0 [] =
        .gas [⟨33188, pathA, zeroHash⟩, ⟨40000, strBytes ("dir"), zeroHash⟩] ∧
      (40000 : Nat) ≠ 0o40000 := by
  constructor
  · decide
  · decide

/-- On the concrete slice the first loop iteration consumes the file entry
a.txt and moves the cursor to 1. -/
lemma wsGo_exItems_step0 (f : Nat) (acc : List TreeEntry) :
    wsGo isFileEx sha0 (f + 1) 0 exItems 0 acc =
      wsGo isFileEx sha0 f 0 exItems 1 (acc ++ [⟨33188, pathA, zeroHash⟩]) := rfl

/-- At cursor 1 the dir run is entered: position over the tail returns the
relative offset 1, so the recursive call receives the empty slice between
absolute indices 1 and 1, an empty tree comes back, a directory entry is
appended, and the cursor is set back to 1: the loop state repeats. -/
lemma wsGo_exItems_step1 (g : Nat) (acc : List TreeEntry) :
    wsGo isFileEx sha0 (g + 2) 0 exItems 1 acc =
      wsGo isFileEx sha0 (g + 1) 0 exItems 1
        (acc ++ [⟨40000, strBytes ("dir"), zeroHash⟩]) := rfl

/-- From cursor 1 the loop never terminates: every fuel bound is exhausted. -/
lemma wsGo_exItems_pos1_gas :
    ∀ fuel acc, ∃ cs, wsGo isFileEx sha0 fuel 0 exItems 1 acc = WsRes.gas cs := by
  intro fuel
  induction fuel using Nat.strong_induction_on with
  | _ fuel ih =>
    match fuel with
    | 0 => exact fun acc => ⟨acc, rfl⟩
    | 1 => exact fun acc => ⟨acc, rfl⟩
    | g + 2 =>
      intro acc
      rw [wsGo_exItems_step1]
      exact ih (g + 1) (by omega) _

/-- The whole build over the concrete slice never terminates. -/
lemma wsGo_exItems_pos0_gas :
    ∀ fuel acc, ∃ cs, wsGo isFileEx sha0 fuel 0 exItems 0 acc = WsRes.gas cs := by
  intro fuel acc
  match fuel with
  | 0 => exact ⟨acc, rfl⟩
  | f + 1 =>
    rw [wsGo_exItems_step0]
    exact wsGo_exItems_pos1_gas f _

/-- C5: counter to the claim, on the path-sorted slice a.txt, dir/b.txt,
e.txt (dir/b.txt not a working-tree file) the build never returns for any
amount of fuel: the loop cursor sticks at 1 because the relative run-end
position is reused as the absolute cursor, so the remaining two entries are
never consumed and the total consumed never equals the slice length. -/
theorem write_subtree_consumption_fails :
    pathsSorted exItems ∧
      ∀ fuel t, write_tree isFileEx sha0 fuel ⟨2, exItems⟩ ≠ WsRes.ok t := by
  refine ⟨by decide, ?_⟩
  intro fuel t h
  obtain ⟨cs, hcs⟩ := wsGo_exItems_pos0_gas fuel []
  rw [show write_tree isFileEx sha0 fuel ⟨2, exItems⟩ =
    wsGo isFileEx sha0 fuel 0 exItems 0 [] from rfl, hcs] at h
  cases h

/-- Every byte the digit loop emits, assuming the accumulator holds only
ASCII digits, is an ASCII digit. -/
lemma mem_digitsGo {base : Nat} (hb0 : 0 < base) (hb : base ≤ 10) :
    ∀ (fuel n : Nat) (acc : List Nat) (b : Nat), (∀ x ∈ acc, 48 ≤ x ∧ x ≤ 57) →
      b ∈ digitsGo base fuel n acc → 48 ≤ b ∧ b ≤ 57 := by
  intro fuel
  induction fuel with
  | zero => exact fun n acc b hacc hmem => hacc b hmem
  | succ f ih =>
    intro n acc b hacc hmem
    by_cases hn : n = 0
    · rw [digitsGo, if_pos hn] at hmem
      exact hacc b hmem
    · rw [digitsGo, if_neg hn] at hmem
      refine ih (n / base) _ b ?_ hmem
      intro x hx
      rcases List.mem_cons.mp hx with rfl | h
      · have hm : n % base < base := Nat.mod_lt n hb0
        omega
      · exact hacc x h

/-- Every byte of a decimal length rendering is an ASCII digit, hence
neither a space nor a NUL. -/
lemma mem_decBytes {n b : Nat} (h : b ∈ decBytes n) : 48 ≤ b ∧ b ≤ 57 := by
  rw [decBytes] at h
  by_cases hn : n = 0
  · rw [if_pos hn] at h
    rcases List.mem_singleton.mp h with rfl
    omega
  · rw [if_neg hn] at h
    exact mem_digitsGo (by omega) (by omega) n n [] b (by intro x hx; cases hx) h

/-- position finds the first satisfying element after a clean run. -/
lemma position_append {α : Type} (p : α → Bool) (xs ys : List α) (y : α)
    (hxs : ∀ x ∈ xs, p x = false) (hy : p y = true) :
    position p (xs ++ y :: ys) = some xs.length := by
  induction xs with
  | nil => simp [position, hy]
  | cons x xs ih =>
    have hx : p x = false := hxs x (List.mem_cons_self x xs)
    have ih2 := ih (fun z hz => hxs z (List.mem_cons_of_mem x hz))
    show (if p x then some 0 else (position p (xs ++ y :: ys)).map (fun n => n + 1)) =
      some (x :: xs).length
    simp [hx, ih2]

/-- C1 as amended: for a blob, writing to the store and then searching for
its own hash returns the blob unchanged, so the content bytes equal the
original.  The SHA-1 parameter is only assumed to produce 20-byte digests. -/
theorem store_round_trip_blob (sha1 : List Nat → List Nat)
    (hs : ∀ bs, (sha1 bs).length = 20) (s : Store) (b : Blob) :
    search_object (Object.write (.blob b) sha1 s) (Object.hash (.blob b) sha1) =
      .ok (some (.blob b)) ∧ Object.contentBytes (.blob b) = b.bytes := by
  refine ⟨?_, rfl⟩
  set L := decBytes b.bytes.length with hL
  have hshape : Object.contentWithHeader (.blob b) =
      strBytes ("blob") ++ 32 :: (L ++ 0 :: b.bytes) := by
    simp [Object.contentWithHeader, Object.typeName, Object.contentBytes, hL,
      List.append_assoc]
  have hlen3 : ¬ (Object.hash (.blob b) sha1).length < 3 := by
    show ¬ (sha1 _).length < 3
    rw [hs]
    omega
  have hraw : read_object_raw (Object.write (.blob b) sha1 s)
      (Object.hash (.blob b) sha1) = some (Object.contentWithHeader (.blob b)) := by
    rw [read_object_raw, if_neg hlen3]
    show List.lookup _ ((Object.hash (.blob b) sha1, _) :: s) = _
    simp [List.lookup]
  have hpos1 : position (fun x => x == 32) (Object.contentWithHeader (.blob b)) =
      some 4 := by
    rw [hshape]
    exact position_append _ _ _ _ (by decide) rfl
  have hdrop5 : (Object.contentWithHeader (.blob b)).drop 5 = L ++ 0 :: b.bytes := by
    rw [hshape]
    rw [show strBytes ("blob") ++ 32 :: (L ++ 0 :: b.bytes) =
      (strBytes ("blob") ++ [32]) ++ (L ++ 0 :: b.bytes) by simp]
    exact List.drop_left' (by decide)
  have hpos2 : position (fun x => x == 0)
      ((Object.contentWithHeader (.blob b)).drop 5) = some L.length := by
    rw [hdrop5]
    refine position_append _ _ _ _ ?_ rfl
    intro x hx
    have hb48 := (mem_decBytes hx).1
    simp only [beq_eq_false_iff_ne, ne_eq]
    omega
  have htake : (Object.contentWithHeader (.blob b)).take 4 = strBytes ("blob") := by
    rw [hshape, List.take_append_of_le_length (by decide)]
    decide
  have hcontents : (Object.contentWithHeader (.blob b)).drop (4 + 1 + L.length + 1) =
      b.bytes := by
    rw [hshape]
    rw [show strBytes ("blob") ++ 32 :: (L ++ 0 :: b.bytes) =
      (strBytes ("blob") ++ 32 :: (L ++ [0])) ++ b.bytes by simp]
    refine List.drop_left' ?_
    simp [strBytes]
    omega
  rw [search_object, hraw]
  simp only [hpos1, hpos2]
  norm_num
  rw [htake, hcontents]
  simp

/-- C1 witness: the blob round trip evaluated on the one-byte blob 104 with
the concrete stand-in digest function. -/
theorem store_round_trip_blob_witness :
    (∀ bs, (sha0 bs).length = 20) ∧
      (search_object (Object.write (.blob ⟨[104]⟩) sha0 [])
          (Object.hash (.blob ⟨[104]⟩) sha0) = .ok (some (.blob ⟨[104]⟩)) ∧
        Object.contentBytes (.blob ⟨[104]⟩) = [104]) :=
  ⟨fun _ => rfl, store_round_trip_blob sha0 (fun _ => rfl) [] ⟨[104]⟩⟩

/-- C1 counterexample: writing the concrete commit c0 and searching for its
own hash panics inside parse_commit (the stored commit content is the stub
byte 0, which yields no tree header), so no Object with the original content
bytes is returned; the claim fails for the commit kind. -/
theorem store_round_trip_commit_counterexample :
    search_object (Object.write (.commit c0) sha0 []) (Object.hash (.commit c0) sha0) =
        .panic ∧
      ∀ o : Object, search_object (Object.write (.commit c0) sha0 [])
        (Object.hash (.commit c0) sha0) ≠ .ok (some o) := by
  have h : search_object (Object.write (.commit c0) sha0 [])
      (Object.hash (.commit c0) sha0) = .panic := by decide
  refine ⟨h, fun o ho => ?_⟩
  rw [h] at ho
  cases ho


lemma mem_cmp_self : ∀ a : List Nat, mem_cmp a a = 0 := by
  intro a
  induction a with
  | nil => rfl
  | cons x xs ih => rw [mem_cmp, if_neg (lt_irrefl x), if_neg (lt_irrefl x)]; exact ih

lemma ne_of_mem_cmp_one {a b : List Nat} (h : mem_cmp a b = 1) : a ≠ b := by
  intro he
  rw [he, mem_cmp_self] at h
  exact absurd h (by decide)

lemma mem_cmp_cases : ∀ a b : List Nat, mem_cmp a b = -1 ∨ mem_cmp a b = 0 ∨ mem_cmp a b = 1 := by
  intro a
  induction a with
  | nil => intro b; cases b <;> simp [mem_cmp]
  | cons x xs ih =>
    intro b
    cases b with
    | nil => simp [mem_cmp]
    | cons y ys =>
      rw [mem_cmp]
      split_ifs with h1 h2
      · simp
      · simp
      · exact ih ys

lemma mem_cmp_total : ∀ a b : List Nat, mem_cmp a b = 1 ∨ mem_cmp b a = 1 ∨ a = b := by
  intro a
  induction a with
  | nil =>
    intro b
    cases b with
    | nil => right; right; rfl
    | cons y ys => left; rfl
  | cons x xs ih =>
    intro b
    cases b with
    | nil => right; left; rfl
    | cons y ys =>
      rcases Nat.lt_trichotomy x y with h | h | h
      · left; rw [mem_cmp, if_pos h]
      · subst h
        rcases ih ys with h1 | h1 | h1
        · left; rw [mem_cmp, if_neg (lt_irrefl x), if_neg (lt_irrefl x)]; exact h1
        · right; left; rw [mem_cmp, if_neg (lt_irrefl x), if_neg (lt_irrefl x)]; exact h1
        · right; right; rw [h1]
      · right; left; rw [mem_cmp, if_pos h]

lemma mem_cmp_trans : ∀ a b c : List Nat, mem_cmp a b = 1 → mem_cmp b c = 1 → mem_cmp a c = 1 := by
  intro a
  induction a with
  | nil =>
    intro b c h1 h2
    cases b with
    | nil => simp [mem_cmp] at h1
    | cons y ys =>
      cases c with
      | nil => simp [mem_cmp] at h2
      | cons z zs => rfl
  | cons x xs ih =>
    intro b c h1 h2
    cases b with
    | nil => simp [mem_cmp] at h1
    | cons y ys =>
      cases c with
      | nil => simp [mem_cmp] at h2
      | cons z zs =>
        rw [mem_cmp] at h1 h2 ⊢
        split_ifs at h1 with hxy hyx
        · split_ifs at h2 with hyz hzy
          · rw [if_pos (by omega : x < z)]
          · rw [if_pos (by omega : x < z)]
        · split_ifs at h2 with hyz hzy
          · rw [if_pos (by omega : x < z)]
          · rw [if_neg (by omega : ¬ x < z), if_neg (by omega : ¬ z < x)]
            exact ih ys zs h1 h2

lemma insertItem_mem {item : IndexItem} :
    ∀ {l : List IndexItem} {y}, y ∈ insertItem item l → y = item ∨ y ∈ l := by
  intro l
  induction l with
  | nil =>
    intro y hy
    rw [insertItem] at hy
    exact Or.inl (List.mem_singleton.mp hy)
  | cons x xs ih =>
    intro y hy
    rw [insertItem] at hy
    split_ifs at hy with hc
    · rcases List.mem_cons.mp hy with rfl | h
      · exact Or.inl rfl
      · exact Or.inr h
    · rcases List.mem_cons.mp hy with rfl | h
      · exact Or.inr (List.mem_cons_self y xs)
      · rcases ih h with rfl | h2
        · exact Or.inl rfl
        · exact Or.inr (List.mem_cons_of_mem x h2)

lemma insertItem_sorted {item : IndexItem} :
    ∀ {l : List IndexItem}, pathsSorted l → (∀ y ∈ l, y.path ≠ item.path) →
      pathsSorted (insertItem item l) := by
  intro l
  induction l with
  | nil => intro _ _; simp [insertItem, pathsSorted]
  | cons x xs ih =>
    intro hs hne
    obtain ⟨hx, hxs⟩ := List.pairwise_cons.mp hs
    rw [insertItem]
    split_ifs with hc
    · have h1 : mem_cmp item.path x.path = 1 := by
        rcases mem_cmp_cases item.path x.path with h | h | h <;> omega
      refine List.Pairwise.cons ?_ hs
      intro y hy
      rcases List.mem_cons.mp hy with rfl | h2
      · exact h1
      · exact mem_cmp_trans _ _ _ h1 (hx y h2)
    · refine List.Pairwise.cons ?_ (ih hxs (fun y hy => hne y (List.mem_cons_of_mem x hy)))
      intro y hy
      rcases insertItem_mem hy with rfl | h2
      · rcases mem_cmp_total x.path y.path with h | h | h
        · exact h
        · exact absurd hc (by omega)
        · exact absurd h (hne x (List.mem_cons_self x xs))
      · exact hx y h2

lemma upsert_sorted {x : Index} {item : IndexItem} (hs : pathsSorted x.items) :
    pathsSorted ((upsert x item).items) := by
  rw [upsert]
  refine insertItem_sorted (List.Pairwise.filter _ hs) ?_
  intro y hy
  simpa using (List.mem_filter.mp hy).2

/-- C3 as amended: starting from the empty index or any index already
satisfying the sort invariant, after any finite sequence of upsert calls in
arbitrary path order the resulting index paths are strictly ascending under
the byte-wise comparison and no two entries share a path. -/
theorem upsert_sequence_sorted (start : Index) (news : List IndexItem)
    (h : pathsSorted start.items) :
    pathsSorted ((news.foldl upsert start).items) ∧
      ((news.foldl upsert start).items.map IndexItem.path).Nodup := by
  have hs : pathsSorted ((news.foldl upsert start).items) := by
    induction news generalizing start with
    | nil => exact h
    | cons n ns ih => exact ih (upsert start n) (upsert_sorted h)
  refine ⟨hs, ?_⟩
  have hp : ((news.foldl upsert start).items.map IndexItem.path).Pairwise
      (fun p q => mem_cmp p q = 1) := List.pairwise_map.mpr hs
  exact hp.imp (fun hpq => ne_of_mem_cmp_one hpq)

/-- C3 witness: three upserts in unsorted path order (b, a, c) onto the
empty index yield strictly ascending, duplicate-free paths. -/
theorem upsert_sequence_sorted_witness :
    pathsSorted (Index.mk 2 []).items ∧
      (pathsSorted (([itemB, itemA, itemC].foldl upsert ⟨2, []⟩).items) ∧
        ((([itemB, itemA, itemC].foldl upsert ⟨2, []⟩).items.map IndexItem.path).Nodup)) :=
  ⟨by decide, upsert_sequence_sorted ⟨2, []⟩ [itemB, itemA, itemC] (by decide)⟩

/-- C3 counterexample: from a starting index violating the sort invariant
(paths b then a), an upsert of path c leaves the index unsorted, refuting
the claim for arbitrary starting indexes. -/
theorem upsert_arbitrary_start_counterexample :
    ¬ pathsSorted (([itemC].foldl upsert ⟨2, [itemB, itemA]⟩).items) := by
  decide


lemma drop_append_ge {α : Type} (a l : List α) (pos : Nat) (h : a.length ≤ pos) :
    (a ++ l).drop pos = l.drop (pos - a.length) := by
  rw [show pos = a.length + (pos - a.length) by omega, List.drop_append]
  congr 1
  omega

lemma beVal_u32 {v : Nat} (h : v < 2 ^ 32) : beVal (u32ToBe v) = v := by
  simp only [beVal, u32ToBe, List.foldl]
  norm_num
  omega

lemma beVal_u16 {v : Nat} (h : v < 2 ^ 16) : beVal (u16ToBe v) = v := by
  simp only [beVal, u16ToBe, List.foldl]
  norm_num
  omega

lemma read_u32_here {v : Nat} (h : v < 2 ^ 32) (b : List Nat) :
    read_u32 (u32ToBe v ++ b) 0 = some v := by
  rw [read_u32, if_pos (by simp [u32ToBe])]
  rw [List.drop_zero, List.take_left' (by simp [u32ToBe] : (u32ToBe v).length = 4)]
  rw [beVal_u32 h]

lemma readSlice_here {c : List Nat} {n : Nat} (hn : c.length = n) (b : List Nat) :
    readSlice (c ++ b) 0 n = some c := by
  rw [readSlice, if_pos (by simp; omega)]
  rw [List.drop_zero, List.take_left' hn]

lemma read_u32_skip {a : List Nat} {k : Nat} (hk : a.length = k) {l : List Nat}
    {pos : Nat} (h : k ≤ pos) :
    read_u32 (a ++ l) pos = read_u32 l (pos - k) := by
  subst hk
  unfold read_u32
  rw [drop_append_ge a l pos h]
  simp only [List.length_append]
  split_ifs with h1 h2 <;> first | rfl | (exfalso; omega)

lemma readSlice_skip {a : List Nat} {k : Nat} (hk : a.length = k) {l : List Nat}
    {pos n : Nat} (h : k ≤ pos) :
    readSlice (a ++ l) pos n = readSlice l (pos - k) n := by
  subst hk
  unfold readSlice
  rw [drop_append_ge a l pos h]
  simp only [List.length_append]
  split_ifs with h1 h2 <;> first | rfl | (exfalso; omega)

lemma readSlice_self (c b : List Nat) : readSlice (c ++ b) 0 c.length = some c :=
  readSlice_here rfl b


lemma parseEntry_concat (v1 v2 v3 v4 v5 v6 v7 v8 v9 v10 fl : Nat)
    (H P pad rest : List Nat)
    (h1 : v1 < 2 ^ 32) (h2 : v2 < 2 ^ 32) (h3 : v3 < 2 ^ 32) (h4 : v4 < 2 ^ 32)
    (h5 : v5 < 2 ^ 32) (h6 : v6 < 2 ^ 32) (h7 : v7 < 2 ^ 32) (h8 : v8 < 2 ^ 32)
    (h9 : v9 < 2 ^ 32) (h10 : v10 < 2 ^ 32) (hH : H.length = 20)
    (hfl : fl < 2 ^ 16) (hplen : fl % 4096 = P.length) :
    parseEntry (u32ToBe v1 ++ (u32ToBe v2 ++ (u32ToBe v3 ++ (u32ToBe v4 ++
        (u32ToBe v5 ++ (u32ToBe v6 ++ (u32ToBe v7 ++ (u32ToBe v8 ++ (u32ToBe v9 ++
        (u32ToBe v10 ++ (H ++ (u16ToBe fl ++ (P ++ (pad ++ rest)))))))))))))) =
      some (⟨v1, v2, v3, v4, v5, v6, v7, v8, v9, v10, H, P⟩,
            62 + P.length + (8 - (62 + P.length) % 8)) := by
  have l4 : ∀ v : Nat, (u32ToBe v).length = 4 := fun v => by simp [u32ToBe]
  have l2 : (u16ToBe fl).length = 2 := by simp [u16ToBe]
  set L := u32ToBe v1 ++ (u32ToBe v2 ++ (u32ToBe v3 ++ (u32ToBe v4 ++
    (u32ToBe v5 ++ (u32ToBe v6 ++ (u32ToBe v7 ++ (u32ToBe v8 ++ (u32ToBe v9 ++
    (u32ToBe v10 ++ (H ++ (u16ToBe fl ++ (P ++ (pad ++ rest))))))))))))) with hL
  have r0 : read_u32 L 0 = some v1 := read_u32_here h1 _
  have r4 : read_u32 L 4 = some v2 := by
    rw [hL, read_u32_skip (l4 v1) (by omega)]
    exact read_u32_here h2 _
  have r8 : read_u32 L 8 = some v3 := by
    rw [hL, read_u32_skip (l4 v1) (by omega), read_u32_skip (l4 v2) (by omega)]
    exact read_u32_here h3 _
  have r12 : read_u32 L 12 = some v4 := by
    rw [hL, read_u32_skip (l4 v1) (by omega), read_u32_skip (l4 v2) (by omega),
      read_u32_skip (l4 v3) (by omega)]
    exact read_u32_here h4 _
  have r16 : read_u32 L 16 = some v5 := by
    rw [hL, read_u32_skip (l4 v1) (by omega), read_u32_skip (l4 v2) (by omega),
      read_u32_skip (l4 v3) (by omega), read_u32_skip (l4 v4) (by omega)]
    exact read_u32_here h5 _
  have r20 : read_u32 L 20 = some v6 := by
    rw [hL, read_u32_skip (l4 v1) (by omega), read_u32_skip (l4 v2) (by omega),
      read_u32_skip (l4 v3) (by omega), read_u32_skip (l4 v4) (by omega),
      read_u32_skip (l4 v5) (by omega)]
    exact read_u32_here h6 _
  have r24 : read_u32 L 24 = some v7 := by
    rw [hL, read_u32_skip (l4 v1) (by omega), read_u32_skip (l4 v2) (by omega),
      read_u32_skip (l4 v3) (by omega), read_u32_skip (l4 v4) (by omega),
      read_u32_skip (l4 v5) (by omega), read_u32_skip (l4 v6) (by omega)]
    exact read_u32_here h7 _
  have r28 : read_u32 L 28 = some v8 := by
    rw [hL, read_u32_skip (l4 v1) (by omega), read_u32_skip (l4 v2) (by omega),
      read_u32_skip (l4 v3) (by omega), read_u32_skip (l4 v4) (by omega),
      read_u32_skip (l4 v5) (by omega), read_u32_skip (l4 v6) (by omega),
      read_u32_skip (l4 v7) (by omega)]
    exact read_u32_here h8 _
  have r32 : read_u32 L 32 = some v9 := by
    rw [hL, read_u32_skip (l4 v1) (by omega), read_u32_skip (l4 v2) (by omega),
      read_u32_skip (l4 v3) (by omega), read_u32_skip (l4 v4) (by omega),
      read_u32_skip (l4 v5) (by omega), read_u32_skip (l4 v6) (by omega),
      read_u32_skip (l4 v7) (by omega), read_u32_skip (l4 v8) (by omega)]
    exact read_u32_here h9 _
  have r36 : read_u32 L 36 = some v10 := by
    rw [hL, read_u32_skip (l4 v1) (by omega), read_u32_skip (l4 v2) (by omega),
      read_u32_skip (l4 v3) (by omega), read_u32_skip (l4 v4) (by omega),
      read_u32_skip (l4 v5) (by omega), read_u32_skip (l4 v6) (by omega),
      read_u32_skip (l4 v7) (by omega), read_u32_skip (l4 v8) (by omega),
      read_u32_skip (l4 v9) (by omega)]
    exact read_u32_here h10 _
  have rH : readSlice L 40 20 = some H := by
    rw [hL, readSlice_skip (l4 v1) (by omega), readSlice_skip (l4 v2) (by omega),
      readSlice_skip (l4 v3) (by omega), readSlice_skip (l4 v4) (by omega),
      readSlice_skip (l4 v5) (by omega), readSlice_skip (l4 v6) (by omega),
      readSlice_skip (l4 v7) (by omega), readSlice_skip (l4 v8) (by omega),
      readSlice_skip (l4 v9) (by omega), readSlice_skip (l4 v10) (by omega)]
    exact readSlice_here hH _
  have rF : readSlice L 60 2 = some (u16ToBe fl) := by
    rw [hL, readSlice_skip (l4 v1) (by omega), readSlice_skip (l4 v2) (by omega),
      readSlice_skip (l4 v3) (by omega), readSlice_skip (l4 v4) (by omega),
      readSlice_skip (l4 v5) (by omega), readSlice_skip (l4 v6) (by omega),
      readSlice_skip (l4 v7) (by omega), readSlice_skip (l4 v8) (by omega),
      readSlice_skip (l4 v9) (by omega), readSlice_skip (l4 v10) (by omega),
      readSlice_skip hH (by omega)]
    exact readSlice_here l2 _
  have rP : readSlice L 62 P.length = some P := by
    rw [hL, readSlice_skip (l4 v1) (by omega), readSlice_skip (l4 v2) (by omega),
      readSlice_skip (l4 v3) (by omega), readSlice_skip (l4 v4) (by omega),
      readSlice_skip (l4 v5) (by omega), readSlice_skip (l4 v6) (by omega),
      readSlice_skip (l4 v7) (by omega), readSlice_skip (l4 v8) (by omega),
      readSlice_skip (l4 v9) (by omega), readSlice_skip (l4 v10) (by omega),
      readSlice_skip hH (by omega), readSlice_skip l2 (by omega)]
    exact readSlice_self P _
  simp only [parseEntry, r0, r4, r8, r12, r16, r20, r24, r28, r32, r36, rH, rF,
    Bind.bind, Option.bind, beVal_u16 hfl, hplen, rP]

lemma entryBytes_parse (i : IndexItem) (rest : List Nat) (h : wfItem i) :
    parseEntry (entryBytes i ++ rest) = some (i, (entryBytes i).length) := by
  obtain ⟨h1, h2, h3, h4, h5, h6, h7, h8, h9, h10, hh, hp⟩ := h
  have hfl : min 0xFFF i.path.length < 2 ^ 16 :=
    Nat.lt_of_le_of_lt (Nat.min_le_left _ _) (by norm_num)
  have hplen : (min 0xFFF i.path.length) % 4096 = i.path.length := by
    rw [Nat.min_eq_right hp]
    exact Nat.mod_eq_of_lt (by omega)
  unfold entryBytes
  simp only [List.append_assoc, List.length_append, hh]
  rw [parseEntry_concat i.ctime i.ctime_nsec i.mtime i.mtime_nsec i.dev i.ino i.mode
    i.uid i.gid i.size (min 0xFFF i.path.length) i.hash i.path _ rest
    h1 h2 h3 h4 h5 h6 h7 h8 h9 h10 hh hfl hplen]
  simp only [Option.some.injEq, Prod.mk.injEq]
  refine ⟨trivial, ?_⟩
  simp [u32ToBe, u16ToBe]
  omega

lemma parseItems_append :
    ∀ (items : List IndexItem) (pre rest : List Nat), (∀ i ∈ items, wfItem i) →
      parseItems (pre ++ ((items.map entryBytes).flatten ++ rest)) items.length
        pre.length = some items := by
  intro items
  induction items with
  | nil => intro pre rest _; rfl
  | cons i is ih =>
    intro pre rest hwf
    rw [show (i :: is).length = is.length + 1 from rfl, parseItems]
    rw [if_neg (by simp [List.length_append])]
    rw [List.drop_left]
    rw [List.map_cons, List.flatten_cons, List.append_assoc]
    rw [entryBytes_parse i _ (hwf i (List.mem_cons_self i is))]
    have hrec := ih (pre ++ entryBytes i) rest
      (fun j hj => hwf j (List.mem_cons_of_mem _ hj))
    simp only [List.length_append] at hrec
    simp only [List.append_assoc] at hrec ⊢
    rw [hrec]
    rfl

/-- C2: for every well-formed index (u32-sized fields and version and count,
20-byte hashes, paths of at most 0xFFF bytes), serialize succeeds and
deserialize of the serialized bytes returns an equal Index, field for field. -/
theorem index_serialize_deserialize_round_trip (sha1 : List Nat → List Nat)
    (x : Index) (h : wfIndex x) :
    ∃ bs, Index.serialize x sha1 = some bs ∧ Index.deserialize bs = Res.ok x := by
  obtain ⟨hv, hn, hitems⟩ := h
  refine ⟨_, by rw [Index.serialize, if_pos hn], ?_⟩
  set flat := (x.items.map entryBytes).flatten with hflat
  set body := strBytes ("DIRC") ++ u32ToBe x.version ++ u32ToBe x.items.length ++ flat
    with hbody
  have hshape : body ++ sha1 body =
      strBytes ("DIRC") ++ (u32ToBe x.version ++ (u32ToBe x.items.length ++
        (flat ++ sha1 body))) := by
    rw [hbody]
    simp [List.append_assoc]
  have hD4 : (strBytes ("DIRC")).length = 4 := by decide
  have hnot4 : ¬ (body ++ sha1 body).length < 4 := by
    rw [hshape]
    simp only [List.length_append, hD4]
    omega
  have hmagic : validUtf8 ((body ++ sha1 body).take 4) = true := by
    rw [hshape, List.take_append_of_le_length (by omega)]
    decide
  have hver : read_u32 (body ++ sha1 body) 4 = some x.version := by
    rw [hshape, read_u32_skip hD4 (by omega)]
    exact read_u32_here hv _
  have hcount : read_u32 (body ++ sha1 body) 8 = some x.items.length := by
    rw [hshape, read_u32_skip hD4 (by omega),
      read_u32_skip (show (u32ToBe x.version).length = 4 by simp [u32ToBe]) (by omega)]
    exact read_u32_here hn _
  have hitems2 : parseItems (body ++ sha1 body) x.items.length 12 = some x.items := by
    have hpre : (strBytes ("DIRC") ++ u32ToBe x.version ++
        u32ToBe x.items.length).length = 12 := by
      simp [List.length_append, u32ToBe, hD4]
    have := parseItems_append x.items
      (strBytes ("DIRC") ++ u32ToBe x.version ++ u32ToBe x.items.length)
      (sha1 body) hitems
    rw [hpre] at this
    rw [hshape]
    rw [← this]
    congr 1
  rw [Index.deserialize, if_neg hnot4, if_pos hmagic, hver, hcount]
  simp only [hitems2]

/-- C2 witness: the round trip evaluated on the concrete one-item index x0
with the concrete stand-in digest function. -/
theorem index_serialize_deserialize_round_trip_witness :
    wfIndex x0 ∧
      ∃ bs, Index.serialize x0 sha0 = some bs ∧ Index.deserialize bs = Res.ok x0 :=
  ⟨by decide, index_serialize_deserialize_round_trip sha0 x0 (by decide)⟩

end Grit
